import Mathlib

/-!
Verification development for the mcp-voice-hooks conversation-flow engine.

The embedding below follows the TypeScript sources:
* `src/unified-server.ts` — the live server: `UtteranceQueue` (utterances only),
  `dequeueUtterancesCore`, `waitForUtteranceCore`, `/api/validate-action`,
  `handleHookRequest`, `/api/speak`, and the SSE observer bookkeeping.
* the test server source (`src/unnamed/part_003`) — `UtteranceQueue` with the
  mirrored `messages` conversation history (`add`, `addAssistantMessage`,
  `markDelivered`, `markResponded`, `clear`) and its HTTP routes.

Machine conventions: `randomUUID` is modelled by an abstract `Nat` token drawn
from a fresh-id counter, `Date` timestamps are `Nat` milliseconds, and the JS
stable `Array.prototype.sort` is modelled by the stable `List.insertionSort`.
-/

namespace VoiceHooks

/-- Utterance status union type `'pending' | 'delivered' | 'responded'`. -/
inductive Status where
  | pending
  | delivered
  | responded
deriving DecidableEq, Repr

/-- Position of a status along the lifecycle `pending → delivered → responded`. -/
def Status.rank : Status → Nat
  | .pending => 0
  | .delivered => 1
  | .responded => 2

/-- The `Utterance` interface: `id`, `text`, `timestamp`, `status`. -/
structure Utterance where
  id : Nat
  text : String
  timestamp : Nat
  status : Status
deriving DecidableEq, Repr

/-- Message role union type `'user' | 'assistant'`. -/
inductive Role where
  | user
  | assistant
deriving DecidableEq, Repr

/-- The `ConversationMessage` interface of the test server: `status` is only
present (`some`) for user messages. -/
structure ConversationMessage where
  id : Nat
  role : Role
  text : String
  timestamp : Nat
  status : Option Status
deriving DecidableEq, Repr

/-- Whitespace test used by the JS `String.prototype.trim` model. -/
def isWs (c : Char) : Bool :=
  c == ' ' || c == '\t' || c == '\n' || c == '\r'

/-- Model of the JS trim call on utterance text: strip leading and trailing
whitespace. (Defined
over the character list so that it evaluates by kernel reduction.) -/
def jsTrim (s : String) : String :=
  ⟨(((s.data.dropWhile isWs).reverse.dropWhile isWs).reverse)⟩

/-- Update the first element satisfying `p` — models the JS idiom
`const x = list.find(p); if (x) mutate(x);`. -/
def updateFirst (p : α → Bool) (f : α → α) : List α → List α
  | [] => []
  | x :: xs => if p x then f x :: xs else x :: updateFirst p f xs

/-- The test-server `UtteranceQueue` store: utterances plus the full
conversation history. -/
structure Queue where
  utterances : List Utterance
  messages : List ConversationMessage
deriving DecidableEq, Repr

/-- The method `UtteranceQueue.add(text, timestamp)`: create a pending utterance (text is
trimmed) and push the mirrored user message in the same synchronous step.
`freshId` stands for the `randomUUID()` result. -/
def Queue.add (q : Queue) (freshId : Nat) (text : String) (timestamp : Nat) :
    Utterance × Queue :=
  let u : Utterance :=
    { id := freshId, text := jsTrim text, timestamp := timestamp, status := .pending }
  (u,
   { utterances := q.utterances ++ [u],
     messages := q.messages ++
       [{ id := u.id, role := .user, text := u.text, timestamp := u.timestamp,
          status := some u.status }] })

/-- The method `UtteranceQueue.addAssistantMessage(text)`: push an assistant message with
no status field. -/
def Queue.addAssistantMessage (q : Queue) (freshId : Nat) (text : String)
    (timestamp : Nat) : ConversationMessage × Queue :=
  let m : ConversationMessage :=
    { id := freshId, role := .assistant, text := jsTrim text, timestamp := timestamp,
      status := none }
  (m, { q with messages := q.messages ++ [m] })

/-- Common shape of `UtteranceQueue.markDelivered` / `markResponded` in the test
server: find the utterance by id; if found, set its status and sync the first
user message sharing the id. If the utterance is absent, nothing changes. -/
def Queue.markStatus (q : Queue) (st : Status) (i : Nat) : Queue :=
  if q.utterances.any (fun u => u.id == i) then
    { utterances :=
        updateFirst (fun u => u.id == i) (fun u => { u with status := st })
          q.utterances,
      messages :=
        updateFirst (fun m => m.id == i && decide (m.role = Role.user))
          (fun m => { m with status := some st }) q.messages }
  else q

/-- The method `UtteranceQueue.markDelivered(id)` of the test server. -/
def Queue.markDelivered (q : Queue) (i : Nat) : Queue := q.markStatus .delivered i

/-- The method `UtteranceQueue.markResponded(id)` of the test server. -/
def Queue.markResponded (q : Queue) (i : Nat) : Queue := q.markStatus .responded i

/-- The method `UtteranceQueue.clear()`: empty both collections. -/
def Queue.clear (_q : Queue) : Queue := { utterances := [], messages := [] }

/-- The method `UtteranceQueue.markDelivered(id)` of `unified-server.ts`, whose queue has
no conversation mirror. -/
def markDeliveredU (l : List Utterance) (i : Nat) : List Utterance :=
  updateFirst (fun u => u.id == i) (fun u => { u with status := .delivered }) l

/-- The `markResponded`-like direct mutation used by
`/api/speak` in `unified-server.ts` acts on filtered references; see
`speakCore` below. The by-id variant is not present there. -/
def markRespondedU (l : List Utterance) (i : Nat) : List Utterance :=
  updateFirst (fun u => u.id == i) (fun u => { u with status := .responded }) l

/-- Global mutable state of `unified-server.ts`: the queue (no conversation
mirror there), the voice preferences, and the two gate timestamps. -/
structure USState where
  utterances : List Utterance
  voiceInputActive : Bool
  voiceResponsesEnabled : Bool
  lastToolUse : Option Nat
  lastSpeak : Option Nat
deriving DecidableEq, Repr

/-- Events sent to observers (SSE broadcast) plus the one-shot audible cue of
the wait loop. -/
inductive WEvent where
  | speak (text : String)
  | waitStatus (isWaiting : Bool)
  | sound
deriving DecidableEq, Repr

def dequeueErr : String :=
  "Voice input is not active. Cannot dequeue utterances when voice input is disabled."

def waitErr : String :=
  "Voice input is not active. Cannot wait for utterances when voice input is disabled."

def speakDisabledErr : String := "Voice responses are disabled"

/-- The function `dequeueUtterancesCore()`: reject when voice input is inactive (no state
change); otherwise mark every pending utterance delivered (iterating the
newest-first sorted copy) and return their texts and timestamps. -/
def dequeueUtterancesCore (s : USState) :
    Except String (List (String × Nat)) × USState :=
  if !s.voiceInputActive then (.error dequeueErr, s)
  else
    let pendingUtterances :=
      List.insertionSort (fun a b : Utterance => b.timestamp ≤ a.timestamp)
        (s.utterances.filter (fun u => decide (u.status = Status.pending)))
    let utterances' :=
      pendingUtterances.foldl (fun l u => markDeliveredU l u.id) s.utterances
    (.ok (pendingUtterances.map (fun u => (u.text, u.timestamp))),
      { s with utterances := utterances' })

/-- The `/api/speak` handler of `unified-server.ts`: empty text and disabled
voice responses are rejected with no state change; otherwise broadcast the
speak event, flip every delivered utterance to responded (the `forEach` direct
mutation over the filtered references, i.e. a conditional map), and record
`lastSpeakTimestamp`. Returns (result carrying respondedCount, state, events). -/
def speakCore (text : String) (now : Nat) (s : USState) :
    Except String Nat × USState × List WEvent :=
  if jsTrim text = "" then (.error "Text is required", s, [])
  else if !s.voiceResponsesEnabled then (.error speakDisabledErr, s, [])
  else
    let deliveredCount :=
      (s.utterances.filter (fun u => decide (u.status = Status.delivered))).length
    let utterances' := s.utterances.map fun u =>
      if u.status = Status.delivered then { u with status := Status.responded } else u
    (.ok deliveredCount,
      { s with utterances := utterances', lastSpeak := some now },
      [WEvent.speak text])

/-- Actions accepted by `/api/validate-action`. -/
inductive VAction where
  | toolUse
  | stop
deriving DecidableEq, Repr

/-- Decision payload of `/api/validate-action`: allowed, or blocked with a
required follow-up action name and a reason. -/
inductive VDecision where
  | allowed
  | blocked (requiredAction : String) (reason : String)
deriving DecidableEq, Repr

def pendingBlockReason (n : Nat) : String :=
  toString n ++
    " pending utterance(s) must be dequeued first. Please use dequeue_utterances to process them."

def deliveredBlockReason (n : Nat) : String :=
  toString n ++
    " delivered utterance(s) require voice response. Please use the speak tool to respond before proceeding."

def stopValidateReason : String :=
  "Assistant tried to end its response. Stopping is not allowed without first checking for voice input. Assistant should now use wait_for_utterance to check for voice input"

/-- The `/api/validate-action` handler (its early returns flattened into an
if-chain): pending input (only when voice input is active) outranks unanswered
delivered input (only when voice responses are enabled), which outranks the
stop-specific wait requirement (only when the queue is non-empty). -/
def validateAction (action : VAction) (s : USState) : VDecision :=
  let pendingCount :=
    (s.utterances.filter (fun u => decide (u.status = Status.pending))).length
  let deliveredCount :=
    (s.utterances.filter (fun u => decide (u.status = Status.delivered))).length
  if s.voiceInputActive && decide (0 < pendingCount) then
    .blocked "dequeue_utterances" (pendingBlockReason pendingCount)
  else if s.voiceResponsesEnabled && decide (0 < deliveredCount) then
    .blocked "speak" (deliveredBlockReason deliveredCount)
  else if decide (action = VAction.stop) && s.voiceInputActive &&
      decide (0 < s.utterances.length) then
    .blocked "wait_for_utterance" stopValidateReason
  else .allowed

/-- State touched by the SSE close handler of `/api/tts-events`: the set of
connected observers plus the shared voice preferences. -/
structure HubState where
  clients : List Nat
  voiceInputActive : Bool
  voiceResponsesEnabled : Bool
deriving DecidableEq, Repr

/-- The `res.on(close)` handler of `/api/tts-events`: remove the observer; if
none remain (and any voice feature was on), force both preferences to false. -/
def disconnectObserver (s : HubState) (c : Nat) : HubState :=
  let remaining := s.clients.erase c
  if remaining.length = 0 then
    if s.voiceInputActive || s.voiceResponsesEnabled then
      { clients := remaining, voiceInputActive := false,
        voiceResponsesEnabled := false }
    else { s with clients := remaining }
  else { s with clients := remaining }

def WAIT_TIMEOUT_SECONDS : Nat := 60

def maxWaitMs : Nat := WAIT_TIMEOUT_SECONDS * 1000

/-- Number of poll iterations the while guard allows: polls happen at elapsed
times `100 * i` ms and run while `100 * i < maxWaitMs`, i.e. `i < 600`. -/
def pollBound : Nat := 600

/-- What the wait loop observes at poll instant `i`: the live preferences and
queue contents (other requests interleave between the 100 ms sleeps). -/
structure WaitSnap where
  voiceInputActive : Bool
  utterances : List Utterance
deriving DecidableEq, Repr

/-- Result of `waitForUtteranceCore`, mirroring its JSON payload (`error` is
`some` exactly for the `success: false` precondition rejection) plus the
broadcast events and the queue contents the call leaves behind. -/
structure WaitOutcome where
  error : Option String
  utterances : List Utterance
  message : Option String
  waitTime : Nat
  events : List WEvent
  final : List Utterance
deriving DecidableEq, Repr

/-- The poll loop of `waitForUtteranceCore`. Iteration `i` runs at elapsed
time `100 * i` ms (consecutive polls are separated by one 100 ms sleep), so
`fuel = pollBound - i` iterations remain under the wall-clock guard. `first`
tracks the one-shot audible cue; `ev` accumulates broadcasts. Each iteration:
return "deactivated" if voice input flipped off; otherwise deliver all pending
utterances oldest-first and return them; otherwise sleep and retry. Fuel
exhaustion is the 60 s timeout. -/
def waitGo (snaps : Nat → WaitSnap) :
    Nat → Nat → Bool → List WEvent → WaitOutcome
  | 0, i, _first, ev =>
    { error := none, utterances := [],
      message := some ("No utterances found after waiting " ++
        toString WAIT_TIMEOUT_SECONDS ++ " seconds."),
      waitTime := maxWaitMs,
      events := ev ++ [WEvent.waitStatus false],
      final := (snaps i).utterances }
  | fuel + 1, i, first, ev =>
    let sn := snaps i
    if !sn.voiceInputActive then
      { error := none, utterances := [],
        message := some "Voice input was deactivated",
        waitTime := 100 * i,
        events := ev ++ [WEvent.waitStatus false],
        final := sn.utterances }
    else
      let pendingUtterances :=
        sn.utterances.filter (fun u => decide (u.status = Status.pending))
      if 0 < pendingUtterances.length then
        let sortedUtterances :=
          List.insertionSort (fun a b : Utterance => a.timestamp ≤ b.timestamp)
            pendingUtterances
        { error := none,
          utterances :=
            sortedUtterances.map (fun u => { u with status := Status.delivered }),
          message := none,
          waitTime := 100 * i,
          events := ev ++ [WEvent.waitStatus false],
          final :=
            sortedUtterances.foldl (fun l u => markDeliveredU l u.id)
              sn.utterances }
      else
        waitGo snaps fuel (i + 1) false
          (if first then ev ++ [WEvent.sound] else ev)

/-- The function `waitForUtteranceCore()`: reject immediately (no broadcast, no state
change) when voice input is inactive at call time (`snaps 0` is the state at
the call; nothing interleaves before the first poll), else broadcast
wait-started and run the poll loop. -/
def waitForUtteranceCore (snaps : Nat → WaitSnap) : WaitOutcome :=
  if !(snaps 0).voiceInputActive then
    { error := some waitErr, utterances := [], message := none, waitTime := 0,
      events := [], final := (snaps 0).utterances }
  else
    waitGo snaps pollBound 0 true [WEvent.waitStatus true]

/-- Sample environment for the C4 witness: nothing pending at the first poll,
one pending utterance from the second poll on. -/
def sampleSnaps : Nat → WaitSnap := fun k =>
  if k = 0 then ⟨true, []⟩ else ⟨true, [⟨5, "hello", 7, Status.pending⟩]⟩

/-- Actions handled by the unified hook handler `handleHookRequest`. -/
inductive HAction where
  | tool
  | speak
  | wait
  | stop
  | postTool
deriving DecidableEq, Repr

/-- Hook decision in the expected hook format: approve (optional reason) or
block (reason always populated). -/
inductive HookDecision where
  | approve (reason : Option String)
  | block (reason : String)
deriving DecidableEq, Repr

/-- Outcome of the awaited inline `wait_for_utterance` call on the stop hook
auto-deliver path: either the call threw (caught by the surrounding catch) or
it returned a wait result. -/
inductive InlineWait where
  | thrown (e : String)
  | returned (r : WaitOutcome)
deriving DecidableEq, Repr

/-- The helper `getVoiceResponseReminder()`: appended to delivered content when voice
responses are enabled. -/
def getVoiceResponseReminder (voiceResponsesEnabled : Bool) : String :=
  if voiceResponsesEnabled then
    "\n\nThe user has enabled voice responses, so use the \x27speak\x27 tool to respond to the user\x27s voice input before proceeding."
  else ""

/-- The helper `formatVoiceUtterances(utterances)` over the utterance texts. -/
def formatVoiceUtterances (texts : List String) (voiceResponsesEnabled : Bool) :
    String :=
  let utteranceTexts :=
    String.intercalate "\n" (texts.map (fun t => "\"" ++ t ++ "\""))
  "Assistant received voice input from the user (" ++ toString texts.length ++
    " utterance" ++ (if texts.length ≠ 1 then "s" else "") ++ "):\n\n" ++
    utteranceTexts ++ getVoiceResponseReminder voiceResponsesEnabled

/-- The condition `voiceResponsesEnabled && lastToolUseTimestamp &&
(!lastSpeakTimestamp || lastSpeakTimestamp < lastToolUseTimestamp)` guarding
the must-speak-after-tool blocks. -/
def mustSpeakAfterTool (s : USState) : Bool :=
  s.voiceResponsesEnabled &&
    match s.lastToolUse, s.lastSpeak with
    | some _, none => true
    | some t, some sp => decide (sp < t)
    | none, _ => false

def speakRequiredReason (n : Nat) : String :=
  toString n ++
    " delivered utterance(s) require voice response. Please use the speak tool to respond before proceeding."

def manualPendingReason (n : Nat) : String :=
  toString n ++
    " pending utterance(s) available. Use the dequeue_utterances tool to retrieve them."

def mustSpeakBeforeWaitReason : String :=
  "Assistant must speak after using tools. Please use the speak tool to respond before waiting for utterances."

def mustSpeakBeforeStopReason : String :=
  "Assistant must speak after using tools. Please use the speak tool to respond before proceeding."

def stopManualReason : String :=
  "Assistant tried to end its response, but voice input is active. Stopping is not allowed without first checking for voice input. Assistant should now use wait_for_utterance to check for voice input"

def autoWaitErrReason : String := "Auto-wait encountered an error, proceeding"

/-- Rules 2–6 of `handleHookRequest` (reached when rule 1 did not return):
delivered-utterance gate, tool timestamping, wait gate, speak approval, and
the stop checkpoint. `inlineWait` stands for the already-awaited result of the
`waitForUtteranceCore()` call on the stop auto path. -/
def handleHookRest (autoDeliver : Bool) (a : HAction) (s : USState) (now : Nat)
    (inlineWait : InlineWait) : HookDecision × USState :=
  let deliveredUtterances :=
    s.utterances.filter (fun u => decide (u.status = Status.delivered))
  if s.voiceResponsesEnabled && decide (0 < deliveredUtterances.length) then
    if a = HAction.speak then (HookDecision.approve none, s)
    else (HookDecision.block (speakRequiredReason deliveredUtterances.length), s)
  else if a = HAction.tool ∨ a = HAction.postTool then
    (HookDecision.approve none, { s with lastToolUse := some now })
  else if a = HAction.wait then
    if mustSpeakAfterTool s then (HookDecision.block mustSpeakBeforeWaitReason, s)
    else (HookDecision.approve none, s)
  else if a = HAction.speak then (HookDecision.approve none, s)
  else if a = HAction.stop then
    if mustSpeakAfterTool s then (HookDecision.block mustSpeakBeforeStopReason, s)
    else if s.voiceInputActive then
      if autoDeliver then
        match inlineWait with
        | InlineWait.thrown _ => (HookDecision.approve (some autoWaitErrReason), s)
        | InlineWait.returned r =>
          match r.error with
          | some e => (HookDecision.approve (some e), s)
          | none =>
            if decide (0 < r.utterances.length) then
              (HookDecision.block
                (formatVoiceUtterances (r.utterances.map (fun u => u.text))
                  s.voiceResponsesEnabled),
                { s with utterances := r.final })
            else
              (HookDecision.approve
                (some (r.message.getD "No utterances found during wait")),
                { s with utterances := r.final })
      else (HookDecision.block stopManualReason, s)
    else (HookDecision.approve (some "No utterances since last timeout"), s)
  else (HookDecision.approve none, s)

/-- The function `handleHookRequest(attemptedAction)`: rule 1 (pending utterances when
voice input is active; auto-deliver dequeues inline, manual mode demands the
dequeue tool), then falls through to `handleHookRest`. `autoDeliver` is the
`AUTO_DELIVER_VOICE_INPUT` flag. Returns the decision plus the global state as
left behind. -/
def handleHookRequest (autoDeliver : Bool) (a : HAction) (s : USState)
    (now : Nat) (inlineWait : InlineWait) : HookDecision × USState :=
  let pendingUtterances :=
    s.utterances.filter (fun u => decide (u.status = Status.pending))
  if s.voiceInputActive && decide (0 < pendingUtterances.length) then
    if autoDeliver then
      match dequeueUtterancesCore s with
      | (Except.ok us, s') =>
        if decide (0 < us.length) then
          (HookDecision.block
            (formatVoiceUtterances (us.reverse.map Prod.fst)
              s'.voiceResponsesEnabled), s')
        else handleHookRest autoDeliver a s' now inlineWait
      | (Except.error _, s') => handleHookRest autoDeliver a s' now inlineWait
    else
      (HookDecision.block (manualPendingReason pendingUtterances.length), s)
  else handleHookRest autoDeliver a s now inlineWait

/-- Full test-server state: the store, the shared preferences, the gate
timestamps, a fresh-id counter standing in for `randomUUID` uniqueness, and a
clock supplying `new Date()` values. -/
structure ServerState where
  queue : Queue
  voiceInputActive : Bool
  voiceResponsesEnabled : Bool
  lastToolUse : Option Nat
  lastSpeak : Option Nat
  nextId : Nat
  now : Nat
deriving DecidableEq, Repr

/-- Public operations of the test server (its HTTP routes): submit input,
dequeue, the wait coordinator's store-mutating deliver step, speak, clear,
preference toggles, and the two list queries — which sort the stored arrays in
place, as the JS `sort` calls in `getRecent` / `getRecentMessages` do. -/
inductive Op where
  | submit (text : String) (timestamp : Option Nat)
  | dequeue
  | waitPoll
  | speak (text : String)
  | clearAll
  | setVoiceInput (active : Bool)
  | setVoiceResponses (enabled : Bool)
  | listUtterances
  | listConversation
deriving DecidableEq, Repr

/-- One public request against the test server. Rejected requests (empty text,
disabled preferences) change nothing; the clock advances with every request. -/
def applyOp (op : Op) (s : ServerState) : ServerState :=
  match op with
  | .submit text timestamp =>
    if jsTrim text = "" then { s with now := s.now + 1 }
    else
      let ts := timestamp.getD s.now
      { s with queue := (s.queue.add s.nextId text ts).2,
               nextId := s.nextId + 1, now := s.now + 1 }
  | .dequeue =>
    if !s.voiceInputActive then { s with now := s.now + 1 }
    else
      let pendingUtterances :=
        List.insertionSort (fun a b : Utterance => b.timestamp ≤ a.timestamp)
          (s.queue.utterances.filter (fun u => decide (u.status = Status.pending)))
      { s with
        queue := pendingUtterances.foldl (fun q u => q.markDelivered u.id) s.queue,
        now := s.now + 1 }
  | .waitPoll =>
    if !s.voiceInputActive then { s with now := s.now + 1 }
    else
      let pendingUtterances :=
        List.insertionSort (fun a b : Utterance => a.timestamp ≤ b.timestamp)
          (s.queue.utterances.filter (fun u => decide (u.status = Status.pending)))
      { s with
        queue := pendingUtterances.foldl (fun q u => q.markDelivered u.id) s.queue,
        now := s.now + 1 }
  | .speak text =>
    if jsTrim text = "" then { s with now := s.now + 1 }
    else if !s.voiceResponsesEnabled then { s with now := s.now + 1 }
    else
      let q1 := (s.queue.addAssistantMessage s.nextId text s.now).2
      let deliveredUtterances :=
        q1.utterances.filter (fun u => decide (u.status = Status.delivered))
      { s with
        queue := deliveredUtterances.foldl (fun q u => q.markResponded u.id) q1,
        lastSpeak := some s.now, nextId := s.nextId + 1, now := s.now + 1 }
  | .clearAll => { s with queue := s.queue.clear, now := s.now + 1 }
  | .setVoiceInput b => { s with voiceInputActive := b, now := s.now + 1 }
  | .setVoiceResponses b => { s with voiceResponsesEnabled := b, now := s.now + 1 }
  | .listUtterances =>
    let sorted :=
      List.insertionSort (fun a b : Utterance => b.timestamp ≤ a.timestamp)
        s.queue.utterances
    { s with queue := { s.queue with utterances := sorted }, now := s.now + 1 }
  | .listConversation =>
    let sorted :=
      List.insertionSort
        (fun a b : ConversationMessage => a.timestamp ≤ b.timestamp)
        s.queue.messages
    { s with queue := { s.queue with messages := sorted }, now := s.now + 1 }

/-- Boot state of the test server: empty store, both preferences false. -/
def initState : ServerState :=
  { queue := ⟨[], []⟩, voiceInputActive := false, voiceResponsesEnabled := false,
    lastToolUse := none, lastSpeak := none, nextId := 0, now := 0 }

/-- Run a sequence of public operations from boot. -/
def run (ops : List Op) : ServerState :=
  ops.foldl (fun s op => applyOp op s) initState

/-- Status of the utterance with the given id, `none` if absent. -/
def statusOf (q : Queue) (i : Nat) : Option Status :=
  (q.utterances.find? (fun u => u.id == i)).map (fun u => u.status)

/-- Reachable-state invariant: utterance and message ids are unique and below
the fresh-id counter, and every user message mirrors the status of the
utterance sharing its id. -/
structure Inv (s : ServerState) : Prop where
  und : (s.queue.utterances.map (fun u => u.id)).Nodup
  mnd : (s.queue.messages.map (fun m => m.id)).Nodup
  ubound : ∀ u ∈ s.queue.utterances, u.id < s.nextId
  mbound : ∀ m ∈ s.queue.messages, m.id < s.nextId
  sync : ∀ m ∈ s.queue.messages, m.role = Role.user →
    ∃ u ∈ s.queue.utterances, u.id = m.id ∧ m.status = some u.status

section UpdateFirstLemmas

variable {α : Type _}

theorem updateFirst_cons_pos (p : α → Bool) (f : α → α) {x : α} (xs : List α)
    (h : p x = true) : updateFirst p f (x :: xs) = f x :: xs := by
  rw [updateFirst, if_pos h]

theorem updateFirst_cons_neg (p : α → Bool) (f : α → α) {x : α} (xs : List α)
    (h : p x = false) : updateFirst p f (x :: xs) = x :: updateFirst p f xs := by
  rw [updateFirst, if_neg (by simp [h])]

theorem updateFirst_of_no_match (p : α → Bool) (f : α → α) {l : List α}
    (h : ∀ x ∈ l, p x = false) : updateFirst p f l = l := by
  induction l with
  | nil => rfl
  | cons x xs ih =>
    rw [updateFirst_cons_neg p f xs (h x (List.mem_cons_self x xs)),
      ih fun y hy => h y (List.mem_cons_of_mem x hy)]

theorem updateFirst_idem (p : α → Bool) (f : α → α)
    (hp : ∀ x, p (f x) = p x) (hf : ∀ x, f (f x) = f x) (l : List α) :
    updateFirst p f (updateFirst p f l) = updateFirst p f l := by
  induction l with
  | nil => rfl
  | cons x xs ih =>
    cases h : p x with
    | true =>
      rw [updateFirst_cons_pos p f xs h,
        updateFirst_cons_pos p f xs ((hp x).trans h), hf x]
    | false =>
      rw [updateFirst_cons_neg p f xs h, updateFirst_cons_neg p f _ h, ih]

theorem any_updateFirst (p : α → Bool) (f : α → α)
    (q : α → Bool) (hq : ∀ x, q (f x) = q x) (l : List α) :
    (updateFirst p f l).any q = l.any q := by
  induction l with
  | nil => rfl
  | cons x xs ih =>
    cases h : p x with
    | true => rw [updateFirst_cons_pos p f xs h]; simp [List.any_cons, hq x]
    | false => rw [updateFirst_cons_neg p f xs h]; simp [List.any_cons, ih]

end UpdateFirstLemmas

theorem Queue.markStatus_idem (q : Queue) (st : Status) (i : Nat) :
    (q.markStatus st i).markStatus st i = q.markStatus st i := by
  unfold Queue.markStatus
  by_cases h : q.utterances.any (fun u => u.id == i) = true
  · rw [if_pos h]
    have hany : (updateFirst (fun u => u.id == i)
        (fun u => { u with status := st }) q.utterances).any
          (fun u => u.id == i) = true := by
      rw [any_updateFirst (fun u => u.id == i)
        (fun u => { u with status := st }) (fun u => u.id == i)
        (fun u => rfl) q.utterances]
      exact h
    simp only
    rw [if_pos hany,
      updateFirst_idem (fun u => u.id == i) (fun u => { u with status := st })
        (fun u => rfl) (fun u => rfl) q.utterances,
      updateFirst_idem (fun m => m.id == i && decide (m.role = Role.user))
        (fun m => { m with status := some st }) (fun m => rfl) (fun m => rfl)
        q.messages]
  · rw [if_neg h, if_neg h]

/-- Claim C5: transitioning an utterance to delivered a second time is a safe
no-op: `markDelivered` is total (never raises) and idempotent, in both the
test-server store (with conversation mirror) and the unified-server queue, so
a second wait/dequeue pass over the same pending set leaves the store exactly
as after the first. -/
theorem markDelivered_idempotent (q : Queue) (l : List Utterance) (i : Nat) :
    (q.markDelivered i).markDelivered i = q.markDelivered i ∧
      markDeliveredU (markDeliveredU l i) i = markDeliveredU l i := by
  constructor
  · exact Queue.markStatus_idem q .delivered i
  · exact updateFirst_idem (fun u => u.id == i)
      (fun u => { u with status := .delivered }) (fun u => rfl) (fun u => rfl) l

/-- Claim C10: `markDelivered` / `markResponded` on an id absent from the store
(for example an id retained from before `clear()`) return normally and leave
the store completely unchanged. -/
theorem mark_absent_id_noop (q : Queue) (l : List Utterance) (i : Nat)
    (hq : ∀ u ∈ q.utterances, u.id ≠ i) (hl : ∀ u ∈ l, u.id ≠ i) :
    q.markDelivered i = q ∧ q.markResponded i = q ∧
      markDeliveredU l i = l ∧ markRespondedU l i = l := by
  have hany : q.utterances.any (fun u => u.id == i) = false := by
    simp only [List.any_eq_false]
    intro u hu
    simpa using hq u hu
  refine ⟨?_, ?_, ?_, ?_⟩
  · simp [Queue.markDelivered, Queue.markStatus, hany]
  · simp [Queue.markResponded, Queue.markStatus, hany]
  · exact updateFirst_of_no_match _ _ fun u hu => by simpa using hl u hu
  · exact updateFirst_of_no_match _ _ fun u hu => by simpa using hl u hu

/-- Witness for C10 at a concrete input: the store holds one utterance with id
0, while we ask about id 7 (for instance obtained before a clear). -/
theorem mark_absent_id_noop_witness :
    (Queue.mk [⟨0, "hi", 5, .pending⟩] []).markDelivered 7 =
        Queue.mk [⟨0, "hi", 5, .pending⟩] [] ∧
      (Queue.mk [⟨0, "hi", 5, .pending⟩] []).markResponded 7 =
        Queue.mk [⟨0, "hi", 5, .pending⟩] [] ∧
      markDeliveredU [⟨0, "hi", 5, .pending⟩] 7 = [⟨0, "hi", 5, .pending⟩] ∧
      markRespondedU [⟨0, "hi", 5, .pending⟩] 7 = [⟨0, "hi", 5, .pending⟩] :=
  mark_absent_id_noop (Queue.mk [⟨0, "hi", 5, .pending⟩] [])
    [⟨0, "hi", 5, .pending⟩] 7 (by decide) (by decide)

/-- Claim C1: with both preferences on, at least one pending and at least one
delivered utterance, `validate(tool-use)` blocks with required follow-up
`dequeue_utterances` — the pending-input rule fires before the
unanswered-input rule, so the decision never demands speak while an utterance
is pending. -/
theorem validate_toolUse_pending_beats_delivered (s : USState)
    (ha : s.voiceInputActive = true) (_hr : s.voiceResponsesEnabled = true)
    (hp : ∃ u ∈ s.utterances, u.status = Status.pending)
    (_hd : ∃ u ∈ s.utterances, u.status = Status.delivered) :
    validateAction VAction.toolUse s =
      VDecision.blocked "dequeue_utterances"
        (pendingBlockReason
          ((s.utterances.filter
            (fun u => decide (u.status = Status.pending))).length) ) := by
  obtain ⟨u, hu, hust⟩ := hp
  have hmem : u ∈ s.utterances.filter (fun u => decide (u.status = Status.pending)) :=
    List.mem_filter.mpr ⟨hu, by simp [hust]⟩
  have hlen : 0 <
      (s.utterances.filter (fun u => decide (u.status = Status.pending))).length :=
    List.length_pos.mpr (List.ne_nil_of_mem hmem)
  unfold validateAction
  rw [if_pos (by simp [ha, hlen])]

/-- Witness for C1: one pending and one delivered utterance, both preferences
true. -/
theorem validate_toolUse_pending_beats_delivered_witness :
    validateAction VAction.toolUse
        (USState.mk [⟨0, "a", 0, Status.pending⟩, ⟨1, "b", 1, Status.delivered⟩]
          true true none none) =
      VDecision.blocked "dequeue_utterances" (pendingBlockReason 1) :=
  validate_toolUse_pending_beats_delivered
    (USState.mk [⟨0, "a", 0, Status.pending⟩, ⟨1, "b", 1, Status.delivered⟩]
      true true none none)
    rfl rfl ⟨⟨0, "a", 0, Status.pending⟩, by decide⟩
    ⟨⟨1, "b", 1, Status.delivered⟩, by decide⟩

/-- Claim C9: whenever a disconnect empties the observer set, both preferences
are false in the state directly after, regardless of their previous values. -/
theorem disconnect_resets_preferences (s : HubState) (c : Nat)
    (h : (s.clients.erase c).length = 0) :
    (disconnectObserver s c).voiceInputActive = false ∧
      (disconnectObserver s c).voiceResponsesEnabled = false ∧
      (disconnectObserver s c).clients = [] := by
  unfold disconnectObserver
  rw [if_pos h]
  have hnil : s.clients.erase c = [] := List.length_eq_zero.mp h
  cases hin : s.voiceInputActive with
  | true => simp [hnil]
  | false =>
    cases hre : s.voiceResponsesEnabled with
    | true => simp [hnil]
    | false => simp [hin, hre, hnil]

/-- Claim C6: `dequeue()`/`wait()` while voice input is inactive and `speak()`
while voice responses are disabled each return the stable precondition error,
mutate nothing (no status change, no message, no broadcast), and repeating the
rejected call gives the same error and the same unchanged state. -/
theorem precondition_rejections_stable (s s₂ : USState) (text : String)
    (now : Nat) (snaps : Nat → WaitSnap)
    (hs : s.voiceInputActive = false)
    (hsn : (snaps 0).voiceInputActive = false)
    (hr : s₂.voiceResponsesEnabled = false)
    (ht : jsTrim text ≠ "") :
    dequeueUtterancesCore s = (.error dequeueErr, s) ∧
      dequeueUtterancesCore (dequeueUtterancesCore s).2 = (.error dequeueErr, s) ∧
      waitForUtteranceCore snaps =
        { error := some waitErr, utterances := [], message := none,
          waitTime := 0, events := [], final := (snaps 0).utterances } ∧
      speakCore text now s₂ = (.error speakDisabledErr, s₂, []) ∧
      speakCore text now (speakCore text now s₂).2.1 =
        (.error speakDisabledErr, s₂, []) := by
  have hd : dequeueUtterancesCore s = (.error dequeueErr, s) := by
    unfold dequeueUtterancesCore
    rw [if_pos (by rw [hs]; rfl)]
  have hsp : speakCore text now s₂ = (.error speakDisabledErr, s₂, []) := by
    unfold speakCore
    rw [if_neg ht, if_pos (by rw [hr]; rfl)]
  refine ⟨hd, ?_, ?_, hsp, ?_⟩
  · rw [hd]; exact hd
  · unfold waitForUtteranceCore
    rw [if_pos (by rw [hsn]; rfl)]
  · rw [hsp]; exact hsp

/-- Witness for C6: inactive input, disabled responses, the text "hi". -/
theorem precondition_rejections_stable_witness :
    dequeueUtterancesCore (USState.mk [⟨0, "a", 0, Status.pending⟩] false true none none) =
        (.error dequeueErr, USState.mk [⟨0, "a", 0, Status.pending⟩] false true none none) ∧
      dequeueUtterancesCore
          (dequeueUtterancesCore
            (USState.mk [⟨0, "a", 0, Status.pending⟩] false true none none)).2 =
        (.error dequeueErr, USState.mk [⟨0, "a", 0, Status.pending⟩] false true none none) ∧
      waitForUtteranceCore (fun _ => WaitSnap.mk false [⟨0, "a", 0, Status.pending⟩]) =
        { error := some waitErr, utterances := [], message := none, waitTime := 0,
          events := [],
          final := ((fun _ => WaitSnap.mk false [⟨0, "a", 0, Status.pending⟩])
            0).utterances } ∧
      speakCore "hi" 9 (USState.mk [⟨0, "a", 0, Status.delivered⟩] true false none none) =
        (.error speakDisabledErr,
          USState.mk [⟨0, "a", 0, Status.delivered⟩] true false none none, []) ∧
      speakCore "hi" 9
          (speakCore "hi" 9
            (USState.mk [⟨0, "a", 0, Status.delivered⟩] true false none none)).2.1 =
        (.error speakDisabledErr,
          USState.mk [⟨0, "a", 0, Status.delivered⟩] true false none none, []) :=
  precondition_rejections_stable
    (USState.mk [⟨0, "a", 0, Status.pending⟩] false true none none)
    (USState.mk [⟨0, "a", 0, Status.delivered⟩] true false none none)
    "hi" 9 (fun _ => WaitSnap.mk false [⟨0, "a", 0, Status.pending⟩])
    rfl rfl rfl (by decide)

section FoldMarkLemmas

variable {α : Type _}

theorem map_ite_of_all_neg (p : α → Bool) (f : α → α) (l : List α)
    (h : ∀ y ∈ l, p y = false) :
    l.map (fun x => if p x then f x else x) = l := by
  induction l with
  | nil => rfl
  | cons z zs ih =>
    rw [List.map_cons, if_neg (by simp [h z (List.mem_cons_self z zs)]),
      ih fun y hy => h y (List.mem_cons_of_mem z hy)]

theorem updateFirst_eq_map_of_countP_le_one (p : α → Bool) (f : α → α) :
    ∀ l : List α, l.countP p ≤ 1 →
      updateFirst p f l = l.map (fun x => if p x then f x else x) := by
  intro l
  induction l with
  | nil => intro _; rfl
  | cons x xs ih =>
    intro h
    cases hx : p x with
    | true =>
      have hc : (x :: xs).countP p = xs.countP p + 1 :=
        List.countP_cons_of_pos p xs hx
      have hzero : xs.countP p = 0 := by omega
      rw [updateFirst_cons_pos p f xs hx, List.map_cons, if_pos hx,
        map_ite_of_all_neg p f xs fun y hy => by
          have := List.countP_eq_zero.mp hzero y hy
          simpa using this]
    | false =>
      have hc : (x :: xs).countP p = xs.countP p :=
        List.countP_cons_of_neg p xs (by simp [hx])
      rw [updateFirst_cons_neg p f xs hx, List.map_cons, if_neg (by simp [hx]),
        ih (by omega)]

theorem countP_beq_le_one_of_nodup {β : Type _} [DecidableEq β] (g : α → β)
    (l : List α) (hnd : (l.map g).Nodup) (b : β) :
    l.countP (fun x => g x == b) ≤ 1 := by
  induction l with
  | nil => simp
  | cons x xs ih =>
    rw [List.map_cons, List.nodup_cons] at hnd
    obtain ⟨hx, hxs⟩ := hnd
    cases hgx : (g x == b) with
    | true =>
      have hgb : g x = b := by simpa using hgx
      have hzero : xs.countP (fun y => g y == b) = 0 := by
        rw [List.countP_eq_zero]
        intro y hy
        simp only [beq_iff_eq]
        intro hgy
        apply hx
        have hmem : g y ∈ xs.map g := List.mem_map_of_mem g hy
        rwa [hgy, ← hgb] at hmem
      rw [List.countP_cons_of_pos _ xs hgx, hzero]
    | false =>
      rw [List.countP_cons_of_neg _ xs (by simp [hgx])]
      exact ih hxs

end FoldMarkLemmas

theorem markDeliveredU_eq_map (l : List Utterance) (i : Nat)
    (hnd : (l.map (fun u => u.id)).Nodup) :
    markDeliveredU l i =
      l.map (fun u => if u.id == i then { u with status := Status.delivered }
        else u) :=
  updateFirst_eq_map_of_countP_le_one _ _ l
    (countP_beq_le_one_of_nodup (fun u => u.id) l hnd i)

theorem foldl_markDeliveredU (L : List Utterance) :
    ∀ l : List Utterance, (l.map (fun u => u.id)).Nodup →
      L.foldl (fun acc u => markDeliveredU acc u.id) l =
        l.map (fun u => if L.any (fun v => v.id == u.id) then
          { u with status := Status.delivered } else u) := by
  induction L with
  | nil =>
    intro l _
    rw [List.foldl_nil]
    exact (map_ite_of_all_neg
      (fun u => List.any ([] : List Utterance) fun v => v.id == u.id)
      (fun u => { u with status := Status.delivered }) l fun y _ => rfl).symm
  | cons v L' ih =>
    intro l hnd
    rw [List.foldl_cons, markDeliveredU_eq_map l v.id hnd]
    have hids : ((l.map (fun u => if u.id == v.id then
        { u with status := Status.delivered } else u)).map (fun u => u.id)) =
        l.map (fun u => u.id) := by
      rw [List.map_map]
      apply List.map_congr_left
      intro u _
      by_cases h : (u.id == v.id) = true <;> simp [Function.comp, h]
    rw [ih _ (by rw [hids]; exact hnd), List.map_map]
    apply List.map_congr_left
    intro u _
    by_cases h : u.id = v.id
    · simp [Function.comp, List.any_cons, beq_iff_eq, h]
    · have h2 : ¬v.id = u.id := fun hh => h hh.symm
      simp [Function.comp, List.any_cons, beq_iff_eq, h, h2]

/-- Marking every element of a complete pending set as delivered (in any
order) is the same as flipping exactly the pending statuses. -/
theorem foldl_markDeliveredU_pending (l : List Utterance)
    (hnd : (l.map (fun u => u.id)).Nodup) (L : List Utterance)
    (hL : ∀ u, u ∈ L ↔ u ∈ l ∧ u.status = Status.pending) :
    L.foldl (fun acc u => markDeliveredU acc u.id) l =
      l.map (fun u => if u.status = Status.pending then
        { u with status := Status.delivered } else u) := by
  rw [foldl_markDeliveredU L l hnd]
  apply List.map_congr_left
  intro u hu
  by_cases hp : u.status = Status.pending
  · rw [if_pos ?_, if_pos hp]
    exact List.any_eq_true.mpr ⟨u, (hL u).mpr ⟨hu, hp⟩, by simp⟩
  · rw [if_neg ?_, if_neg hp]
    intro hany
    obtain ⟨v, hv, hvid⟩ := List.any_eq_true.mp hany
    obtain ⟨hvl, hvp⟩ := (hL v).mp hv
    have : v = u := List.inj_on_of_nodup_map hnd hvl hu (by simpa using hvid)
    exact hp (this ▸ hvp)

theorem waitGo_skip (snaps : Nat → WaitSnap) (fuel i : Nat) (first : Bool)
    (ev : List WEvent)
    (hact : (snaps i).voiceInputActive = true)
    (hemp : (snaps i).utterances.filter
      (fun u => decide (u.status = Status.pending)) = []) :
    waitGo snaps (fuel + 1) i first ev =
      waitGo snaps fuel (i + 1) false
        (if first then ev ++ [WEvent.sound] else ev) := by
  simp only [waitGo, hact, Bool.not_true, Bool.false_eq_true, if_false, hemp,
    List.length_nil, lt_self_iff_false]

theorem waitGo_reach (snaps : Nat → WaitSnap) (j : Nat) :
    ∀ (i fuel : Nat) (first : Bool) (ev : List WEvent),
      j ≤ fuel →
      (∀ k, k < j → (snaps (i + k)).voiceInputActive = true ∧
        (snaps (i + k)).utterances.filter
          (fun u => decide (u.status = Status.pending)) = []) →
      ∃ first' ev',
        waitGo snaps fuel i first ev = waitGo snaps (fuel - j) (i + j) first' ev' := by
  induction j with
  | zero => intro i fuel first ev _ _; exact ⟨first, ev, by simp⟩
  | succ j ih =>
    intro i fuel first ev hj h
    obtain ⟨f, rfl⟩ : ∃ f, fuel = f + 1 := ⟨fuel - 1, by omega⟩
    have h0 := h 0 (Nat.succ_pos j)
    rw [Nat.add_zero] at h0
    rw [waitGo_skip snaps f i first ev h0.1 h0.2]
    obtain ⟨first', ev', heq⟩ := ih (i + 1) f false
      (if first then ev ++ [WEvent.sound] else ev) (by omega)
      (fun k hk => by
        have hk1 := h (k + 1) (by omega)
        rwa [show i + (k + 1) = i + 1 + k by omega] at hk1)
    have e1 : f - j = f + 1 - (j + 1) := by omega
    have e2 : i + 1 + j = i + (j + 1) := by omega
    rw [e1, e2] at heq
    exact ⟨first', ev', heq⟩

/-- Claim C4: if at some poll (the first with anything pending, voice input
having stayed active) the pending set is non-empty, `wait()` transitions every
pending utterance to delivered, returns exactly those utterances oldest-first
by timestamp with the elapsed wait time, and its broadcasts end with the
wait-ended event. -/
theorem wait_delivers_all_pending (snaps : Nat → WaitSnap) (j : Nat)
    (hj : j < pollBound)
    (hbefore : ∀ k, k < j → (snaps k).voiceInputActive = true ∧
      (snaps k).utterances.filter
        (fun u => decide (u.status = Status.pending)) = [])
    (hact : (snaps j).voiceInputActive = true)
    (hpend : (snaps j).utterances.filter
      (fun u => decide (u.status = Status.pending)) ≠ [])
    (hnd : ((snaps j).utterances.map (fun u => u.id)).Nodup) :
    ∃ ev, waitForUtteranceCore snaps =
      { error := none,
        utterances := (List.insertionSort
            (fun a b : Utterance => a.timestamp ≤ b.timestamp)
            ((snaps j).utterances.filter
              (fun u => decide (u.status = Status.pending)))).map
          (fun u => { u with status := Status.delivered }),
        message := none,
        waitTime := 100 * j,
        events := ev ++ [WEvent.waitStatus false],
        final := (snaps j).utterances.map (fun u =>
          if u.status = Status.pending then { u with status := Status.delivered }
          else u) } ∧
      List.Pairwise (fun a b : Utterance => a.timestamp ≤ b.timestamp)
        ((List.insertionSort (fun a b : Utterance => a.timestamp ≤ b.timestamp)
          ((snaps j).utterances.filter
            (fun u => decide (u.status = Status.pending)))).map
          (fun u => { u with status := Status.delivered })) := by
  have hact0 : (snaps 0).voiceInputActive = true := by
    rcases Nat.eq_zero_or_pos j with h0 | h0
    · rw [h0] at hact; exact hact
    · exact (hbefore 0 h0).1
  have hsortmem : ∀ u : Utterance,
      u ∈ List.insertionSort (fun a b : Utterance => a.timestamp ≤ b.timestamp)
        ((snaps j).utterances.filter
          (fun u => decide (u.status = Status.pending))) ↔
      u ∈ (snaps j).utterances ∧ u.status = Status.pending := by
    intro u
    rw [List.mem_insertionSort, List.mem_filter]
    simp
  haveI instTot : IsTotal Utterance (fun a b => a.timestamp ≤ b.timestamp) :=
    ⟨fun a b => Nat.le_total a.timestamp b.timestamp⟩
  haveI instTrans : IsTrans Utterance (fun a b => a.timestamp ≤ b.timestamp) :=
    ⟨fun _ _ _ hab hbc => Nat.le_trans hab hbc⟩
  have hsorted := List.sorted_insertionSort
    (fun a b : Utterance => a.timestamp ≤ b.timestamp)
    ((snaps j).utterances.filter (fun u => decide (u.status = Status.pending)))
  obtain ⟨first', ev', heq⟩ := waitGo_reach snaps j 0 pollBound true
    [WEvent.waitStatus true] (Nat.le_of_lt hj)
    (fun k hk => by simpa using hbefore k hk)
  rw [Nat.zero_add] at heq
  obtain ⟨f, hf⟩ : ∃ f, pollBound - j = f + 1 := by
    have hj600 : j < 600 := hj
    exact ⟨pollBound - j - 1, by unfold pollBound; omega⟩
  rw [hf] at heq
  have hlen : 0 < ((snaps j).utterances.filter
      (fun u => decide (u.status = Status.pending))).length :=
    List.length_pos.mpr hpend
  refine ⟨ev', ?_, ?_⟩
  · unfold waitForUtteranceCore
    rw [if_neg (by rw [hact0]; simp), heq]
    simp only [waitGo, hact, Bool.not_true, Bool.false_eq_true, if_false,
      hlen, if_true]
    rw [foldl_markDeliveredU_pending _ hnd _ hsortmem]
  · exact List.pairwise_map.mpr hsorted

/-- Witness for C4: the pending set becomes non-empty at poll 1. -/
theorem wait_delivers_all_pending_witness :
    ∃ ev, waitForUtteranceCore sampleSnaps =
      { error := none,
        utterances := (List.insertionSort
            (fun a b : Utterance => a.timestamp ≤ b.timestamp)
            ((sampleSnaps 1).utterances.filter
              (fun u => decide (u.status = Status.pending)))).map
          (fun u => { u with status := Status.delivered }),
        message := none,
        waitTime := 100 * 1,
        events := ev ++ [WEvent.waitStatus false],
        final := (sampleSnaps 1).utterances.map (fun u =>
          if u.status = Status.pending then { u with status := Status.delivered }
          else u) } ∧
      List.Pairwise (fun a b : Utterance => a.timestamp ≤ b.timestamp)
        ((List.insertionSort (fun a b : Utterance => a.timestamp ≤ b.timestamp)
          ((sampleSnaps 1).utterances.filter
            (fun u => decide (u.status = Status.pending)))).map
          (fun u => { u with status := Status.delivered })) :=
  wait_delivers_all_pending sampleSnaps 1 (by decide)
    (fun k hk => by
      have hk0 : k = 0 := by omega
      subst hk0
      exact ⟨rfl, rfl⟩)
    rfl (by decide) (by decide)

/-- Claim C7: at the stop checkpoint in auto-deliver mode, when the inline
wait throws an internal error, the handler returns approve (fail-open) with
the fixed reason, leaving the state untouched — the host is never blocked by
a fault on the auto-wait path. -/
theorem stop_auto_wait_error_fail_open (s : USState) (now : Nat) (e : String)
    (hact : s.voiceInputActive = true)
    (hnp : s.utterances.filter (fun u => decide (u.status = Status.pending)) = [])
    (hnd : (s.voiceResponsesEnabled && decide (0 <
      (s.utterances.filter
        (fun u => decide (u.status = Status.delivered))).length)) = false)
    (hms : mustSpeakAfterTool s = false) :
    handleHookRequest true HAction.stop s now (InlineWait.thrown e) =
      (HookDecision.approve (some autoWaitErrReason), s) := by
  unfold handleHookRequest
  rw [if_neg (by rw [hnp]; simp)]
  unfold handleHookRest
  rw [if_neg (by rw [hnd]; simp),
    if_neg (by rintro (h | h) <;> exact HAction.noConfusion h),
    if_neg (by exact fun h => HAction.noConfusion h),
    if_neg (by exact fun h => HAction.noConfusion h),
    if_pos rfl, if_neg (by rw [hms]; simp), if_pos hact, if_pos rfl]

/-- Witness for C7: empty store, voice input on, the wait throws "boom". -/
theorem stop_auto_wait_error_fail_open_witness :
    handleHookRequest true HAction.stop (USState.mk [] true true none none) 4
        (InlineWait.thrown "boom") =
      (HookDecision.approve (some autoWaitErrReason),
        USState.mk [] true true none none) :=
  stop_auto_wait_error_fail_open (USState.mk [] true true none none) 4 "boom"
    rfl rfl rfl rfl

/-- Claim C8: at the stop checkpoint in manual mode with voice input active,
nothing pending, no delivered utterance blocking, and the speak-after-tool
obligation satisfied, the handler blocks demanding the wait follow-up — also
when the store is completely empty. -/
theorem stop_manual_blocks_with_wait (s : USState) (now : Nat) (w : InlineWait)
    (hact : s.voiceInputActive = true)
    (hnp : s.utterances.filter (fun u => decide (u.status = Status.pending)) = [])
    (hnd : (s.voiceResponsesEnabled && decide (0 <
      (s.utterances.filter
        (fun u => decide (u.status = Status.delivered))).length)) = false)
    (hms : mustSpeakAfterTool s = false) :
    handleHookRequest false HAction.stop s now w =
      (HookDecision.block stopManualReason, s) := by
  unfold handleHookRequest
  rw [if_neg (by rw [hnp]; simp)]
  unfold handleHookRest
  rw [if_neg (by rw [hnd]; simp),
    if_neg (by rintro (h | h) <;> exact HAction.noConfusion h),
    if_neg (by exact fun h => HAction.noConfusion h),
    if_neg (by exact fun h => HAction.noConfusion h),
    if_pos rfl, if_neg (by rw [hms]; simp), if_pos hact]
  rfl

/-- Witness for C8: completely empty store, voice input on, manual mode. -/
theorem stop_manual_blocks_with_wait_witness :
    handleHookRequest false HAction.stop (USState.mk [] true false none none) 4
        (InlineWait.returned
          { error := none, utterances := [], message := none, waitTime := 0,
            events := [], final := [] }) =
      (HookDecision.block stopManualReason, USState.mk [] true false none none) :=
  stop_manual_blocks_with_wait (USState.mk [] true false none none) 4
    (InlineWait.returned
      { error := none, utterances := [], message := none, waitTime := 0,
        events := [], final := [] })
    rfl rfl rfl rfl

theorem map_map_eq_of_comp_eq {α β : Type _} (f : α → α) (g : α → β)
    (h : ∀ x, g (f x) = g x) (l : List α) : (l.map f).map g = l.map g := by
  rw [List.map_map]
  apply List.map_congr_left
  intro x _
  exact h x

theorem Queue.markStatus_eq_map (q : Queue) (st : Status) (i : Nat)
    (hndu : (q.utterances.map (fun u => u.id)).Nodup)
    (hndm : (q.messages.map (fun m => m.id)).Nodup) :
    q.markStatus st i =
      if q.utterances.any (fun u => u.id == i) then
        { utterances := q.utterances.map (fun u =>
            if u.id == i then { u with status := st } else u),
          messages := q.messages.map (fun m =>
            if m.id == i && decide (m.role = Role.user) then
              { m with status := some st } else m) }
      else q := by
  unfold Queue.markStatus
  by_cases h : q.utterances.any (fun u => u.id == i) = true
  · rw [if_pos h, if_pos h]
    congr 1
    · exact updateFirst_eq_map_of_countP_le_one _ _ q.utterances
        (countP_beq_le_one_of_nodup (fun u => u.id) q.utterances hndu i)
    · refine updateFirst_eq_map_of_countP_le_one _ _ q.messages
        (le_trans (List.countP_mono_left ?_)
          (countP_beq_le_one_of_nodup (fun m => m.id) q.messages hndm i))
      intro m _ hm
      exact (Bool.and_eq_true_iff.mp hm).1
  · rw [if_neg h, if_neg h]

theorem foldl_markStatus (st : Status) (L : List Utterance) :
    ∀ q : Queue, (q.utterances.map (fun u => u.id)).Nodup →
      (q.messages.map (fun m => m.id)).Nodup →
      (∀ v ∈ L, q.utterances.any (fun u => u.id == v.id) = true) →
      L.foldl (fun q v => q.markStatus st v.id) q =
        { utterances := q.utterances.map (fun u =>
            if L.any (fun v => v.id == u.id) then { u with status := st } else u),
          messages := q.messages.map (fun m =>
            if L.any (fun v => v.id == m.id) && decide (m.role = Role.user) then
              { m with status := some st } else m) } := by
  induction L with
  | nil =>
    intro q _ _ _
    rw [List.foldl_nil]
    cases q with
    | mk us ms =>
      simp only
      congr 1
      · exact (map_ite_of_all_neg
          (fun u => List.any ([] : List Utterance) (fun v => v.id == u.id))
          (fun u => { u with status := st }) us (fun y _ => rfl)).symm
      · exact (map_ite_of_all_neg
          (fun m => List.any ([] : List Utterance) (fun v => v.id == m.id) &&
            decide (m.role = Role.user))
          (fun m => { m with status := some st }) ms (fun y _ => rfl)).symm
  | cons v L' ih =>
    intro q hndu hndm hmem
    rw [List.foldl_cons]
    have hv := hmem v (List.mem_cons_self v L')
    rw [Queue.markStatus_eq_map q st v.id hndu hndm, if_pos hv]
    have hfu : ∀ u : Utterance,
        (if u.id == v.id then { u with status := st } else u).id = u.id := by
      intro u
      by_cases h : (u.id == v.id) = true <;> simp [h]
    have hfm : ∀ m : ConversationMessage,
        (if m.id == v.id && decide (m.role = Role.user) then
          { m with status := some st } else m).id = m.id := by
      intro m
      by_cases h : (m.id == v.id && decide (m.role = Role.user)) = true <;> simp [h]
    have hidu := map_map_eq_of_comp_eq
      (fun u => if u.id == v.id then { u with status := st } else u)
      (fun u => u.id) hfu q.utterances
    have hidm := map_map_eq_of_comp_eq
      (fun m => if m.id == v.id && decide (m.role = Role.user) then
        { m with status := some st } else m)
      (fun m => m.id) hfm q.messages
    have hmem' : ∀ w ∈ L',
        ((q.utterances.map (fun u =>
          if u.id == v.id then { u with status := st } else u)).any
          (fun u => u.id == w.id)) = true := by
      intro w hw
      rw [List.any_map]
      have hfun : ((fun u : Utterance => u.id == w.id) ∘ (fun u =>
          if u.id == v.id then { u with status := st } else u)) =
          (fun u : Utterance => u.id == w.id) := by
        funext u
        simp only [Function.comp_apply]
        rw [hfu u]
      rw [hfun]
      exact hmem w (List.mem_cons_of_mem v hw)
    rw [ih _ (by rw [hidu]; exact hndu) (by rw [hidm]; exact hndm) hmem']
    simp only
    congr 1
    · rw [List.map_map]
      apply List.map_congr_left
      intro u _
      by_cases h : u.id = v.id
      · simp [Function.comp, List.any_cons, beq_iff_eq, h]
      · have h2 : ¬v.id = u.id := fun hh => h hh.symm
        simp [Function.comp, List.any_cons, beq_iff_eq, h, h2]
    · rw [List.map_map]
      apply List.map_congr_left
      intro m _
      by_cases h : m.id = v.id
      · by_cases hr : m.role = Role.user
        · simp [Function.comp, List.any_cons, beq_iff_eq, h, hr]
        · simp [Function.comp, List.any_cons, beq_iff_eq, h, hr]
      · have h2 : ¬v.id = m.id := fun hh => h hh.symm
        simp [Function.comp, List.any_cons, beq_iff_eq, h, h2]

/-- Marking a complete `st₀`-status set of utterances with status `st` (in any
order) flips exactly the `st₀` statuses on the utterance side. -/
theorem foldl_markStatus_filter (st₀ st : Status) (q : Queue)
    (hndu : (q.utterances.map (fun u => u.id)).Nodup)
    (hndm : (q.messages.map (fun m => m.id)).Nodup)
    (L : List Utterance)
    (hL : ∀ u, u ∈ L ↔ u ∈ q.utterances ∧ u.status = st₀) :
    L.foldl (fun q v => q.markStatus st v.id) q =
      { utterances := q.utterances.map (fun u =>
          if u.status = st₀ then { u with status := st } else u),
        messages := q.messages.map (fun m =>
          if L.any (fun v => v.id == m.id) && decide (m.role = Role.user) then
            { m with status := some st } else m) } := by
  rw [foldl_markStatus st L q hndu hndm
    (fun v hv => List.any_eq_true.mpr ⟨v, ((hL v).mp hv).1, by simp⟩)]
  congr 1
  apply List.map_congr_left
  intro u hu
  by_cases hp : u.status = st₀
  · rw [if_pos (List.any_eq_true.mpr ⟨u, (hL u).mpr ⟨hu, hp⟩, by simp⟩), if_pos hp]
  · rw [if_neg ?_, if_neg hp]
    intro hany
    obtain ⟨v, hv, hvid⟩ := List.any_eq_true.mp hany
    obtain ⟨hvl, hvp⟩ := (hL v).mp hv
    have hvu : v = u := List.inj_on_of_nodup_map hndu hvl hu (by simpa using hvid)
    exact hp (hvu ▸ hvp)

theorem statusOf_map (f : Utterance → Utterance) (hf : ∀ u, (f u).id = u.id)
    (us : List Utterance) (ms : List ConversationMessage) (j : Nat) :
    statusOf ⟨us.map f, ms⟩ j =
      (us.find? (fun u => u.id == j)).map (fun u => (f u).status) := by
  unfold statusOf
  simp only
  rw [List.find?_map]
  have hfn : ((fun u : Utterance => u.id == j) ∘ f) = (fun u => u.id == j) := by
    funext u
    simp only [Function.comp_apply]
    rw [hf u]
  rw [hfn, Option.map_map]
  rfl

theorem statusOf_of_mem_iff (us us' : List Utterance)
    (ms ms' : List ConversationMessage)
    (hnd : (us.map (fun u => u.id)).Nodup)
    (hmem : ∀ u, u ∈ us' ↔ u ∈ us) (j : Nat) :
    statusOf ⟨us', ms'⟩ j = statusOf ⟨us, ms⟩ j := by
  unfold statusOf
  simp only
  cases hfind : us.find? (fun u => u.id == j) with
  | none =>
    have hnone : us'.find? (fun u => u.id == j) = none := by
      rw [List.find?_eq_none] at hfind ⊢
      intro x hx
      exact hfind x ((hmem x).mp hx)
    rw [hnone]
  | some u =>
    have hu : u ∈ us := List.mem_of_find?_eq_some hfind
    have hpu := List.find?_some hfind
    obtain ⟨v, hv⟩ : ∃ v, us'.find? (fun u => u.id == j) = some v :=
      Option.isSome_iff_exists.mp
        (List.find?_isSome.mpr ⟨u, (hmem u).mpr hu, hpu⟩)
    have hvm : v ∈ us := (hmem v).mp (List.mem_of_find?_eq_some hv)
    have hpv := List.find?_some hv
    have hvu : v = u := List.inj_on_of_nodup_map hnd hvm hu (by
      have e1 : v.id = j := by simpa using hpv
      have e2 : u.id = j := by simpa using hpu
      rw [e1, e2])
    rw [hv, hvu]

theorem nodup_append_fresh (l : List Nat) (n : Nat) (hnd : l.Nodup)
    (hb : ∀ x ∈ l, x < n) : (l ++ [n]).Nodup := by
  rw [List.nodup_append]
  refine ⟨hnd, List.nodup_singleton n, ?_⟩
  rw [List.disjoint_singleton]
  intro hmem
  exact absurd (hb n hmem) (lt_irrefl n)

/-- A complete mark pass over utterances whose ids are present in the store
keeps the reachable-state invariants. -/
theorem fold_mark_preserves (st : Status) (L : List Utterance) (q : Queue)
    (N : Nat)
    (hndu : (q.utterances.map (fun u => u.id)).Nodup)
    (hndm : (q.messages.map (fun m => m.id)).Nodup)
    (hbu : ∀ u ∈ q.utterances, u.id < N)
    (hbm : ∀ m ∈ q.messages, m.id < N)
    (hsync : ∀ m ∈ q.messages, m.role = Role.user →
      ∃ u ∈ q.utterances, u.id = m.id ∧ m.status = some u.status)
    (hmem : ∀ v ∈ L, q.utterances.any (fun u => u.id == v.id) = true) :
    (((L.foldl (fun q v => q.markStatus st v.id) q).utterances.map
        (fun u => u.id)).Nodup ∧
      ((L.foldl (fun q v => q.markStatus st v.id) q).messages.map
        (fun m => m.id)).Nodup) ∧
      (∀ u ∈ (L.foldl (fun q v => q.markStatus st v.id) q).utterances, u.id < N) ∧
      (∀ m ∈ (L.foldl (fun q v => q.markStatus st v.id) q).messages, m.id < N) ∧
      (∀ m ∈ (L.foldl (fun q v => q.markStatus st v.id) q).messages,
        m.role = Role.user →
        ∃ u ∈ (L.foldl (fun q v => q.markStatus st v.id) q).utterances,
          u.id = m.id ∧ m.status = some u.status) := by
  rw [foldl_markStatus st L q hndu hndm hmem]
  have hfUid : ∀ u : Utterance,
      (if L.any (fun v => v.id == u.id) then { u with status := st } else u).id =
        u.id := by
    intro u
    by_cases hc : (L.any fun v => v.id == u.id) = true <;> simp [hc]
  have hfMid : ∀ m : ConversationMessage,
      (if L.any (fun v => v.id == m.id) && decide (m.role = Role.user) then
        { m with status := some st } else m).id = m.id := by
    intro m
    by_cases hc : (L.any (fun v => v.id == m.id) &&
      decide (m.role = Role.user)) = true <;> simp [hc]
  have hfMrole : ∀ m : ConversationMessage,
      (if L.any (fun v => v.id == m.id) && decide (m.role = Role.user) then
        { m with status := some st } else m).role = m.role := by
    intro m
    by_cases hc : (L.any (fun v => v.id == m.id) &&
      decide (m.role = Role.user)) = true <;> simp [hc]
  refine ⟨⟨?_, ?_⟩, ?_, ?_, ?_⟩
  · rw [map_map_eq_of_comp_eq _ _ hfUid]
    exact hndu
  · rw [map_map_eq_of_comp_eq _ _ hfMid]
    exact hndm
  · intro u' hu'
    obtain ⟨u, hu, rfl⟩ := List.mem_map.mp hu'
    rw [hfUid u]
    exact hbu u hu
  · intro m' hm'
    obtain ⟨m, hm, rfl⟩ := List.mem_map.mp hm'
    rw [hfMid m]
    exact hbm m hm
  · intro m' hm' hrole'
    obtain ⟨m, hm, rfl⟩ := List.mem_map.mp hm'
    have hrole : m.role = Role.user := by rw [← hfMrole m]; exact hrole'
    obtain ⟨u, hu, hid, hstat⟩ := hsync m hm hrole
    refine ⟨_, List.mem_map_of_mem _ hu, ?_, ?_⟩
    · rw [hfUid u, hfMid m]
      exact hid
    · by_cases hc : (L.any fun v => v.id == m.id) = true
      · have hcu : (L.any fun v => v.id == u.id) = true := by rw [hid]; exact hc
        simp [hc, hcu, hrole]
      · have hcu : ¬(L.any fun v => v.id == u.id) = true := by
          rw [hid]; exact hc
        simp [hc, hcu, hrole, hstat]

theorem inv_applyOp (op : Op) (s : ServerState) (h : Inv s) :
    Inv (applyOp op s) := by
  obtain ⟨hund, hmnd, hub, hmb, hsync⟩ := h
  cases op with
  | submit text timestamp =>
    simp only [applyOp]
    by_cases ht : jsTrim text = ""
    · rw [if_pos ht]
      exact ⟨hund, hmnd, hub, hmb, hsync⟩
    · rw [if_neg ht]
      simp only [Queue.add]
      refine ⟨?_, ?_, ?_, ?_, ?_⟩
      · rw [List.map_append]
        exact nodup_append_fresh _ _ hund fun x hx => by
          obtain ⟨u, hu, rfl⟩ := List.mem_map.mp hx
          exact hub u hu
      · rw [List.map_append]
        exact nodup_append_fresh _ _ hmnd fun x hx => by
          obtain ⟨m, hm, rfl⟩ := List.mem_map.mp hx
          exact hmb m hm
      · intro u hu
        rcases List.mem_append.mp hu with hu | hu
        · exact Nat.lt_trans (hub u hu) (Nat.lt_succ_self _)
        · rw [List.mem_singleton.mp hu]
          exact Nat.lt_succ_self _
      · intro m hm
        rcases List.mem_append.mp hm with hm | hm
        · exact Nat.lt_trans (hmb m hm) (Nat.lt_succ_self _)
        · rw [List.mem_singleton.mp hm]
          exact Nat.lt_succ_self _
      · intro m hm hrole
        rcases List.mem_append.mp hm with hm | hm
        · obtain ⟨u, hu, hid, hstat⟩ := hsync m hm hrole
          exact ⟨u, List.mem_append_left _ hu, hid, hstat⟩
        · rw [List.mem_singleton.mp hm]
          exact ⟨_, List.mem_append_right _ (List.mem_singleton.mpr rfl), rfl, rfl⟩
  | dequeue =>
    simp only [applyOp]
    cases hact : s.voiceInputActive with
    | false =>
      simp only [Bool.not_false]
      rw [if_pos trivial]
      exact ⟨hund, hmnd, hub, hmb, hsync⟩
    | true =>
      simp only [Bool.not_true]
      rw [if_neg (by simp)]
      have hres := fold_mark_preserves Status.delivered
        (List.insertionSort (fun a b : Utterance => b.timestamp ≤ a.timestamp)
          (s.queue.utterances.filter (fun u => decide (u.status = Status.pending))))
        s.queue s.nextId hund hmnd hub hmb hsync
        (fun v hv => List.any_eq_true.mpr
          ⟨v, (List.mem_filter.mp ((List.mem_insertionSort _).mp hv)).1, by simp⟩)
      exact ⟨hres.1.1, hres.1.2, hres.2.1, hres.2.2.1, hres.2.2.2⟩
  | waitPoll =>
    simp only [applyOp]
    cases hact : s.voiceInputActive with
    | false =>
      simp only [Bool.not_false]
      rw [if_pos trivial]
      exact ⟨hund, hmnd, hub, hmb, hsync⟩
    | true =>
      simp only [Bool.not_true]
      rw [if_neg (by simp)]
      have hres := fold_mark_preserves Status.delivered
        (List.insertionSort (fun a b : Utterance => a.timestamp ≤ b.timestamp)
          (s.queue.utterances.filter (fun u => decide (u.status = Status.pending))))
        s.queue s.nextId hund hmnd hub hmb hsync
        (fun v hv => List.any_eq_true.mpr
          ⟨v, (List.mem_filter.mp ((List.mem_insertionSort _).mp hv)).1, by simp⟩)
      exact ⟨hres.1.1, hres.1.2, hres.2.1, hres.2.2.1, hres.2.2.2⟩
  | speak text =>
    simp only [applyOp]
    by_cases ht : jsTrim text = ""
    · rw [if_pos ht]
      exact ⟨hund, hmnd, hub, hmb, hsync⟩
    · rw [if_neg ht]
      cases hen : s.voiceResponsesEnabled with
      | false =>
        simp only [Bool.not_false]
        rw [if_pos trivial]
        exact ⟨hund, hmnd, hub, hmb, hsync⟩
      | true =>
        simp only [Bool.not_true]
        rw [if_neg (by simp)]
        simp only [Queue.addAssistantMessage]
        have hmnd1 : ((s.queue.messages ++
            [({ id := s.nextId, role := Role.assistant, text := jsTrim text, timestamp := s.now, status := none } : ConversationMessage)]).map
            (fun m => m.id)).Nodup := by
          rw [List.map_append]
          exact nodup_append_fresh _ _ hmnd fun x hx => by
            obtain ⟨m, hm, rfl⟩ := List.mem_map.mp hx
            exact hmb m hm
        have hmb1 : ∀ m ∈ s.queue.messages ++
            [({ id := s.nextId, role := Role.assistant, text := jsTrim text, timestamp := s.now, status := none } : ConversationMessage)], m.id < s.nextId + 1 := by
          intro m hm
          rcases List.mem_append.mp hm with hm | hm
          · exact Nat.lt_trans (hmb m hm) (Nat.lt_succ_self _)
          · rw [List.mem_singleton.mp hm]
            exact Nat.lt_succ_self _
        have hsync1 : ∀ m ∈ s.queue.messages ++
            [({ id := s.nextId, role := Role.assistant, text := jsTrim text, timestamp := s.now, status := none } : ConversationMessage)], m.role = Role.user →
            ∃ u ∈ s.queue.utterances, u.id = m.id ∧ m.status = some u.status := by
          intro m hm hrole
          rcases List.mem_append.mp hm with hm | hm
          · exact hsync m hm hrole
          · rw [List.mem_singleton.mp hm] at hrole
            exact absurd hrole (by intro hr; exact Role.noConfusion hr)
        have hres := fold_mark_preserves Status.responded
          (List.filter (fun u => decide (u.status = Status.delivered))
            s.queue.utterances)
          ⟨s.queue.utterances, s.queue.messages ++
            [({ id := s.nextId, role := Role.assistant, text := jsTrim text, timestamp := s.now, status := none } : ConversationMessage)]⟩
          (s.nextId + 1) hund hmnd1
          (fun u hu => Nat.lt_trans (hub u hu) (Nat.lt_succ_self _)) hmb1 hsync1
          (fun v hv => List.any_eq_true.mpr
            ⟨v, (List.mem_filter.mp hv).1, by simp⟩)
        exact ⟨hres.1.1, hres.1.2, hres.2.1, hres.2.2.1, hres.2.2.2⟩
  | clearAll =>
    refine ⟨?_, ?_, ?_, ?_, ?_⟩ <;> simp [applyOp, Queue.clear]
  | setVoiceInput b => exact ⟨hund, hmnd, hub, hmb, hsync⟩
  | setVoiceResponses b => exact ⟨hund, hmnd, hub, hmb, hsync⟩
  | listUtterances =>
    have hperm := List.perm_insertionSort
      (fun a b : Utterance => b.timestamp ≤ a.timestamp) s.queue.utterances
    refine ⟨?_, hmnd, ?_, hmb, ?_⟩
    · exact ((hperm.symm).map (fun u => u.id)).nodup hund
    · intro u hu
      exact hub u ((List.mem_insertionSort _).mp hu)
    · intro m hm hrole
      obtain ⟨u, hu, hid, hstat⟩ := hsync m hm hrole
      exact ⟨u, (List.mem_insertionSort _).mpr hu, hid, hstat⟩
  | listConversation =>
    have hperm := List.perm_insertionSort
      (fun a b : ConversationMessage => a.timestamp ≤ b.timestamp)
      s.queue.messages
    refine ⟨hund, ?_, hub, ?_, ?_⟩
    · exact ((hperm.symm).map (fun m => m.id)).nodup hmnd
    · intro m hm
      exact hmb m ((List.mem_insertionSort _).mp hm)
    · intro m hm hrole
      exact hsync m ((List.mem_insertionSort _).mp hm) hrole

theorem inv_initState : Inv initState := by
  refine ⟨?_, ?_, ?_, ?_, ?_⟩ <;> simp [initState]

theorem inv_run (ops : List Op) : Inv (run ops) := by
  suffices hgen : ∀ (l : List Op) (s : ServerState), Inv s →
      Inv (l.foldl (fun s op => applyOp op s) s) from
    hgen ops initState inv_initState
  intro l
  induction l with
  | nil => intro s hs; exact hs
  | cons op l ih =>
    intro s hs
    exact ih _ (inv_applyOp op s hs)

theorem find?_status_append (us l : List Utterance) (j : Nat) (st : Status)
    (h : (us.find? (fun u => u.id == j)).map (fun u => u.status) = some st) :
    (((us ++ l).find? (fun u => u.id == j)).map (fun u => u.status)) = some st := by
  rw [List.find?_append]
  cases hf : us.find? (fun u => u.id == j) with
  | none => rw [hf] at h; simp at h
  | some u =>
    rw [hf] at h
    exact h

theorem statusOf_advance_applyOp (op : Op) (s : ServerState) (hInv : Inv s)
    (i : Nat) (st st' : Status)
    (h1 : statusOf s.queue i = some st)
    (h2 : statusOf (applyOp op s).queue i = some st') :
    st.rank ≤ st'.rank ∧ st'.rank ≤ st.rank + 1 := by
  obtain ⟨hund, hmnd, hub, hmb, hsync⟩ := hInv
  have hsame : ∀ x : Option Status, x = some st → x = some st' →
      st.rank ≤ st'.rank ∧ st'.rank ≤ st.rank + 1 := by
    intro x hx hy
    rw [hx] at hy
    cases Option.some.inj hy
    exact ⟨Nat.le_refl _, Nat.le_succ _⟩
  cases op with
  | submit text timestamp =>
    simp only [applyOp] at h2
    by_cases ht : jsTrim text = ""
    · rw [if_pos ht] at h2
      exact hsame _ h1 h2
    · rw [if_neg ht] at h2
      simp only [Queue.add] at h2
      refine hsame _ ?_ h2
      exact find?_status_append s.queue.utterances _ i st h1
  | dequeue =>
    simp only [applyOp] at h2
    by_cases hact : s.voiceInputActive = true
    · rw [if_neg (by rw [hact]; simp)] at h2
      simp only [Queue.markDelivered] at h2
      rw [foldl_markStatus_filter Status.pending Status.delivered s.queue hund hmnd
        (List.insertionSort (fun a b : Utterance => b.timestamp ≤ a.timestamp)
          (s.queue.utterances.filter (fun u => decide (u.status = Status.pending))))
        (fun u => by rw [List.mem_insertionSort, List.mem_filter]; simp)] at h2
      rw [statusOf_map _ (fun u => by
        by_cases hp : u.status = Status.pending <;> simp [hp]) _ _ i] at h2
      unfold statusOf at h1
      cases hf : s.queue.utterances.find? (fun u => u.id == i) with
      | none => rw [hf] at h1; simp at h1
      | some u =>
        rw [hf] at h1 h2
        simp only [Option.map_some'] at h1 h2
        cases Option.some.inj h1
        by_cases hp : u.status = Status.pending
        · rw [if_pos hp] at h2
          have hst' : st' = Status.delivered := (Option.some.inj h2).symm
          rw [hst', hp]
          exact ⟨by decide, by decide⟩
        · rw [if_neg hp] at h2
          exact hsame (some u.status) rfl h2
    · have hfalse : s.voiceInputActive = false := by
        revert hact; cases s.voiceInputActive <;> simp
      rw [if_pos (by rw [hfalse]; rfl)] at h2
      exact hsame _ h1 h2
  | waitPoll =>
    simp only [applyOp] at h2
    by_cases hact : s.voiceInputActive = true
    · rw [if_neg (by rw [hact]; simp)] at h2
      simp only [Queue.markDelivered] at h2
      rw [foldl_markStatus_filter Status.pending Status.delivered s.queue hund hmnd
        (List.insertionSort (fun a b : Utterance => a.timestamp ≤ b.timestamp)
          (s.queue.utterances.filter (fun u => decide (u.status = Status.pending))))
        (fun u => by rw [List.mem_insertionSort, List.mem_filter]; simp)] at h2
      rw [statusOf_map _ (fun u => by
        by_cases hp : u.status = Status.pending <;> simp [hp]) _ _ i] at h2
      unfold statusOf at h1
      cases hf : s.queue.utterances.find? (fun u => u.id == i) with
      | none => rw [hf] at h1; simp at h1
      | some u =>
        rw [hf] at h1 h2
        simp only [Option.map_some'] at h1 h2
        cases Option.some.inj h1
        by_cases hp : u.status = Status.pending
        · rw [if_pos hp] at h2
          have hst' : st' = Status.delivered := (Option.some.inj h2).symm
          rw [hst', hp]
          exact ⟨by decide, by decide⟩
        · rw [if_neg hp] at h2
          exact hsame (some u.status) rfl h2
    · have hfalse : s.voiceInputActive = false := by
        revert hact; cases s.voiceInputActive <;> simp
      rw [if_pos (by rw [hfalse]; rfl)] at h2
      exact hsame _ h1 h2
  | speak text =>
    simp only [applyOp] at h2
    by_cases ht : jsTrim text = ""
    · rw [if_pos ht] at h2
      exact hsame _ h1 h2
    · rw [if_neg ht] at h2
      by_cases hen : s.voiceResponsesEnabled = true
      · rw [if_neg (by rw [hen]; simp)] at h2
        simp only [Queue.addAssistantMessage, Queue.markResponded] at h2
        have hmnd1 : (((s.queue.messages ++
            [({ id := s.nextId, role := Role.assistant, text := jsTrim text, timestamp := s.now, status := none } : ConversationMessage)]).map
            (fun m => m.id)).Nodup) := by
          rw [List.map_append]
          exact nodup_append_fresh _ _ hmnd fun x hx => by
            obtain ⟨m, hm, rfl⟩ := List.mem_map.mp hx
            exact hmb m hm
        rw [foldl_markStatus_filter Status.delivered Status.responded
          ⟨s.queue.utterances, s.queue.messages ++
            [({ id := s.nextId, role := Role.assistant, text := jsTrim text, timestamp := s.now, status := none } : ConversationMessage)]⟩
          hund hmnd1
          (s.queue.utterances.filter (fun u => decide (u.status = Status.delivered)))
          (fun u => by rw [List.mem_filter]; simp)] at h2
        rw [statusOf_map _ (fun u => by
          by_cases hp : u.status = Status.delivered <;> simp [hp]) _ _ i] at h2
        unfold statusOf at h1
        cases hf : s.queue.utterances.find? (fun u => u.id == i) with
        | none => rw [hf] at h1; simp at h1
        | some u =>
          rw [hf] at h1 h2
          simp only [Option.map_some'] at h1 h2
          cases Option.some.inj h1
          by_cases hp : u.status = Status.delivered
          · rw [if_pos hp] at h2
            have hst' : st' = Status.responded := (Option.some.inj h2).symm
            rw [hst', hp]
            exact ⟨by decide, by decide⟩
          · rw [if_neg hp] at h2
            exact hsame (some u.status) rfl h2
      · have hfalse : s.voiceResponsesEnabled = false := by
          revert hen; cases s.voiceResponsesEnabled <;> simp
        rw [if_pos (by rw [hfalse]; rfl)] at h2
        exact hsame _ h1 h2
  | clearAll =>
    simp only [applyOp, Queue.clear] at h2
    exact absurd h2 (by simp [statusOf])
  | setVoiceInput b =>
    simp only [applyOp] at h2
    exact hsame _ h1 h2
  | setVoiceResponses b =>
    simp only [applyOp] at h2
    exact hsame _ h1 h2
  | listUtterances =>
    simp only [applyOp] at h2
    rw [statusOf_of_mem_iff s.queue.utterances _ s.queue.messages _ hund
      (fun u => List.mem_insertionSort _) i] at h2
    exact hsame _ h1 h2
  | listConversation =>
    simp only [applyOp] at h2
    exact hsame _ h1 h2

/-- Claim C2: along any sequence of public operations, the status of an
utterance (tracked by id) only moves forward along
pending → delivered → responded: no step regresses a status and no step jumps
from pending directly to responded. -/
theorem status_only_advances (ops : List Op) (op : Op) (i : Nat)
    (st st' : Status)
    (h1 : statusOf (run ops).queue i = some st)
    (h2 : statusOf (applyOp op (run ops)).queue i = some st') :
    st.rank ≤ st'.rank ∧ st'.rank ≤ st.rank + 1 :=
  statusOf_advance_applyOp op (run ops) (inv_run ops) i st st' h1 h2

/-- Witness for C2: submitting "hi" then dequeuing moves its status from
pending to delivered, one rank forward. -/
theorem status_only_advances_witness :
    Status.pending.rank ≤ Status.delivered.rank ∧
      Status.delivered.rank ≤ Status.pending.rank + 1 :=
  status_only_advances [Op.setVoiceInput true, Op.submit "hi" none] Op.dequeue 0
    Status.pending Status.delivered (by decide) (by decide)

/-- Claim C3: in every reachable state, every user conversation message
carries exactly the status of the utterance sharing its id. -/
theorem conversation_mirrors_utterances (ops : List Op)
    (m : ConversationMessage) (hm : m ∈ (run ops).queue.messages)
    (hrole : m.role = Role.user) :
    ∃ u ∈ (run ops).queue.utterances, u.id = m.id ∧ m.status = some u.status :=
  (inv_run ops).sync m hm hrole

/-- Witness for C3: after submitting "hi", the mirrored user message agrees
with its utterance. -/
theorem conversation_mirrors_utterances_witness :
    ∃ u ∈ (run [Op.submit "hi" none]).queue.utterances,
      u.id = ({ id := 0, role := Role.user, text := "hi", timestamp := 0, status := some Status.pending } : ConversationMessage).id ∧
      ({ id := 0, role := Role.user, text := "hi", timestamp := 0, status := some Status.pending } : ConversationMessage).status = some u.status :=
  conversation_mirrors_utterances [Op.submit "hi" none]
    ⟨0, Role.user, "hi", 0, some Status.pending⟩ (by decide) rfl

/-- Witness for C9: the last observer (id 3) disconnects while both
preferences are on. -/
theorem disconnect_resets_preferences_witness :
    (disconnectObserver (HubState.mk [3] true true) 3).voiceInputActive = false ∧
      (disconnectObserver (HubState.mk [3] true true) 3).voiceResponsesEnabled =
        false ∧
      (disconnectObserver (HubState.mk [3] true true) 3).clients = [] :=
  disconnect_resets_preferences (HubState.mk [3] true true) 3 (by decide)

end VoiceHooks
